import Mathlib

/-!
Verification of the NASOOH prediction builder (`predict_next_term_fixed_v2.py`)
and API server (`api_server.py`).

The development shallowly embeds the code that the claims exercise:

* `term_sort_key`, the year/ordinal term-key comparator of the builder,
  including Python's `int()` parsing (sign, surrounding whitespace,
  underscores between digits; unicode digits are outside the model) and
  Python's left-to-right `split("-", 1)`;
* the builder's latest-completed-term selection
  (`completed` / stable sort by `(student_id, __key)` / `groupby.tail(1)`);
* the feature-column validation of the builder;
* the `risk_probability_high` column computation from the classifier;
* the `/api/prediction` Flask handler, with Python truthiness for the
  `or`-chains that resolve output fields from synonym columns;
* the identifier column of a CSV as loaded by `pd.read_csv` followed by
  `.astype(str)` (integer dtype inference, bounded by the int64/uint64
  ranges, rendered canonically; int-like columns beyond 64-bit range fall
  back to float64 and, like float and bool inferred columns, are left
  unmodelled, `none`, since their string rendering goes through floating
  point).
-/

/-- A Python value as seen by `term_sort_key`: either a string or any
non-string value (number, NaN, None, ...), which the code treats uniformly
via `isinstance(term_key, str)`. -/
inductive PyVal where
  | str (s : String)
  | nonStr
deriving DecidableEq

/-- Whitespace as stripped by Python's `str.strip()` (ASCII fragment). -/
def isWS (c : Char) : Bool := c.isWhitespace

/-- Strip leading and trailing whitespace, as `int()` does before parsing. -/
def stripWS (l : List Char) : List Char :=
  ((l.dropWhile isWS).reverse.dropWhile isWS).reverse

/-- One step of decimal accumulation. -/
def digitStep (a : Nat) (c : Char) : Nat := 10 * a + (c.toNat - 48)

/-- Value of a digit string. -/
def decimalVal (l : List Char) : Nat := l.foldl digitStep 0

/-- Digits with Python's underscore rule (an underscore must sit between
two digits), continuing from an accumulated value. -/
def digitsCore : Nat → List Char → Option Nat
  | acc, [] => some acc
  | acc, c :: rest =>
    if c = '_' then
      match rest with
      | [] => none
      | d :: rest2 => if d.isDigit then digitsCore (digitStep acc d) rest2 else none
    else if c.isDigit then digitsCore (digitStep acc c) rest else none

/-- An unsigned integer literal as accepted by Python's `int()`:
nonempty digits, underscores allowed only between digits. -/
def parseUDigits : List Char → Option Nat
  | [] => none
  | c :: rest => if c.isDigit then digitsCore (digitStep 0 c) rest else none

/-- Optional sign then digits, on an already-stripped character list. -/
def pyIntStripped : List Char → Option Int
  | [] => none
  | c :: rest =>
    if c = '+' then (parseUDigits rest).map (fun n => Int.ofNat n)
    else if c = '-' then (parseUDigits rest).map (fun n => -(Int.ofNat n))
    else (parseUDigits (c :: rest)).map (fun n => Int.ofNat n)

/-- Python's `int(s)` on a string (ASCII fragment): strip whitespace,
optional sign, digits with underscores; `none` models `ValueError`. -/
def pyIntList? (l : List Char) : Option Int := pyIntStripped (stripWS l)

/-- Python's `s.split("-", 1)`: the part before the first `'-'` and the
part after it. -/
def splitFirst : List Char → List Char × List Char
  | [] => ([], [])
  | c :: rest =>
    if c = '-' then ([], rest)
    else
      let p := splitFirst rest
      (c :: p.1, p.2)

/-- `term_sort_key` from `predict_next_term_fixed_v2.py`: a non-string or a
string without `'-'` maps to `(0, 0)`; otherwise split at the first `'-'`,
parse the year (`0` on failure), map a summer term (upper-case `"S"`) to
ordinal `3`, and parse any other term (`0` on failure). -/
def term_sort_key : PyVal → Int × Int
  | .nonStr => (0, 0)
  | .str s =>
    if s.data.contains '-' then
      let p := splitFirst s.data
      let y : Int := (pyIntList? p.1).getD 0
      let t : Int :=
        if p.2.map Char.toUpper = ['S'] then 3
        else (pyIntList? p.2).getD 0
      (y, t)
    else (0, 0)

/-- Lexicographic `≤` on key pairs, as Python compares tuples. -/
def keyLE (a b : Int × Int) : Bool :=
  decide (a.1 < b.1) || (decide (a.1 = b.1) && decide (a.2 ≤ b.2))

/-- Lexicographic `<` on key pairs, as Python compares tuples. -/
def keyLT (a b : Int × Int) : Bool :=
  decide (a.1 < b.1) || (decide (a.1 = b.1) && decide (a.2 < b.2))

theorem keyLE_iff (a b : Int × Int) :
    keyLE a b = true ↔ (a.1 < b.1 ∨ (a.1 = b.1 ∧ a.2 ≤ b.2)) := by
  simp [keyLE]

theorem keyLT_iff (a b : Int × Int) :
    keyLT a b = true ↔ (a.1 < b.1 ∨ (a.1 = b.1 ∧ a.2 < b.2)) := by
  simp [keyLT]

theorem keyLE_refl (a : Int × Int) : keyLE a a = true := by
  rw [keyLE_iff]; omega

theorem keyLE_total (a b : Int × Int) : keyLE a b = true ∨ keyLE b a = true := by
  rw [keyLE_iff, keyLE_iff]; omega

theorem keyLE_trans {a b c : Int × Int} (h1 : keyLE a b = true)
    (h2 : keyLE b c = true) : keyLE a c = true := by
  rw [keyLE_iff] at h1 h2 ⊢; omega

theorem keyLE_antisymm {a b : Int × Int} (h1 : keyLE a b = true)
    (h2 : keyLE b a = true) : a = b := by
  rw [keyLE_iff] at h1 h2
  have : a.1 = b.1 ∧ a.2 = b.2 := by omega
  exact Prod.ext this.1 this.2

/-- A term record: the columns of the `Term_Summary` sheet that the
selection logic reads. `term_gpa` and `term_points` are the values after
`pd.to_numeric(..., errors="coerce")`: `none` models NaN (coercion
failure or a missing cell); comparisons with NaN are false in pandas. -/
structure Row where
  student_id : String
  term_key : PyVal
  term_gpa : Option ℚ
  term_points : Option ℚ
deriving DecidableEq

/-- Pandas `col > 0`: false on NaN. -/
def posQ : Option ℚ → Bool
  | none => false
  | some v => decide (0 < v)

/-- A completed term: `term_gpa > 0` and `term_points > 0`. -/
def completedB (r : Row) : Bool := posQ r.term_gpa && posQ r.term_points

/-- `completed = ts[(ts["term_gpa"] > 0) & (ts["term_points"] > 0)]`. -/
def completed (ts : List Row) : List Row := ts.filter completedB

/-- The derived `__key` column: `term_key.apply(term_sort_key)`. -/
def rowKey (r : Row) : Int × Int := term_sort_key r.term_key

/-- Row order used by `sort_values(["student_id", "__key"])`: by student
identifier (Python strings compare lexicographically by code point, i.e.
on the character list), then by derived key. -/
def rowLE (a b : Row) : Prop :=
  a.student_id.data < b.student_id.data ∨
    (a.student_id = b.student_id ∧ keyLE (rowKey a) (rowKey b) = true)

instance : DecidableRel rowLE := fun a b =>
  decidable_of_iff
    (a.student_id.data < b.student_id.data ∨
      (a.student_id = b.student_id ∧ keyLE (rowKey a) (rowKey b) = true))
    Iff.rfl

theorem rowLE_refl (a : Row) : rowLE a a :=
  Or.inr ⟨rfl, keyLE_refl _⟩

/-- Two strings with identical character lists are equal. -/
theorem string_data_inj {a b : String} (h : a.data = b.data) : a = b := by
  cases a
  cases b
  exact congrArg String.mk h

instance : IsTotal Row rowLE where
  total a b := by
    rcases lt_trichotomy a.student_id.data b.student_id.data with h | h | h
    · exact Or.inl (Or.inl h)
    · have he : a.student_id = b.student_id := string_data_inj h
      rcases keyLE_total (rowKey a) (rowKey b) with hk | hk
      · exact Or.inl (Or.inr ⟨he, hk⟩)
      · exact Or.inr (Or.inr ⟨he.symm, hk⟩)
    · exact Or.inr (Or.inl h)

instance : IsTrans Row rowLE where
  trans a b c hab hbc := by
    rcases hab with h1 | ⟨e1, k1⟩
    · rcases hbc with h2 | ⟨e2, _⟩
      · exact Or.inl (lt_trans h1 h2)
      · exact Or.inl (e2 ▸ h1)
    · rcases hbc with h2 | ⟨e2, k2⟩
      · exact Or.inl (e1 ▸ h2)
      · exact Or.inr ⟨e1.trans e2, keyLE_trans k1 k2⟩

/-- `groupby("student_id").tail(1)`: keep each row whose student identifier
does not occur again later in the list, i.e. the last row of every
student's group. -/
def groupTail1 : List Row → List Row
  | [] => []
  | r :: rest =>
    if rest.any (fun r2 => r2.student_id == r.student_id) then groupTail1 rest
    else r :: groupTail1 rest

/-- The builder's selection
`completed.sort_values(["student_id", "__key"]).groupby("student_id").tail(1)`.
Pandas sorts on several columns with `np.lexsort`, which is stable, so the
sort is modelled by Mathlib's stable `insertionSort`.  (The final
`out.sort_values("student_id")` only reorders whole rows of this result,
one per student, so the claims are stated on `latest`.) -/
def latest (ts : List Row) : List Row :=
  groupTail1 (List.insertionSort rowLE (completed ts))

theorem getLast?_mem' {α : Type} : ∀ {l : List α} {x : α},
    l.getLast? = some x → x ∈ l
  | [], _, h => by cases h
  | [a], x, h => by
    have : a = x := by simpa using h
    simp [this]
  | a :: b :: t, x, h => by
    rw [List.getLast?_cons_cons] at h
    exact List.mem_cons_of_mem a (getLast?_mem' h)

theorem getLast?_filter {α : Type} (p : α → Bool) : ∀ {l : List α} {m : α},
    l.getLast? = some m → p m = true → (l.filter p).getLast? = some m
  | [], _, h, _ => by cases h
  | [a], m, h, hp => by
    have ha : a = m := by simpa using h
    subst ha
    simp [List.filter_cons, hp]
  | a :: b :: t, m, h, hp => by
    rw [List.getLast?_cons_cons] at h
    have ih := getLast?_filter p h hp
    rw [List.filter_cons]
    by_cases hpa : p a = true
    · rw [if_pos hpa]
      cases hfe : (b :: t).filter p with
      | nil => rw [hfe] at ih; cases ih
      | cons c cs => rw [hfe] at ih; rw [List.getLast?_cons_cons]; exact ih
    · rw [if_neg hpa]
      exact ih

theorem sorted_rel_getLast? : ∀ {l : List Row} {m : Row},
    List.Sorted rowLE l → l.getLast? = some m → ∀ x ∈ l, rowLE x m
  | [], _, _, hm, _, hx => by cases hx
  | [a], m, _, hm, x, hx => by
    have ha : a = m := by simpa using hm
    have hxa : x = a := by simpa using hx
    subst ha; subst hxa
    exact rowLE_refl x
  | a :: b :: t, m, hs, hm, x, hx => by
    rw [List.getLast?_cons_cons] at hm
    rcases List.mem_cons.mp hx with hxa | hxm
    · subst hxa
      exact List.rel_of_sorted_cons hs m (getLast?_mem' hm)
    · exact sorted_rel_getLast? (List.Sorted.of_cons hs) hm x hxm

theorem groupTail1_subset : ∀ {l : List Row} {x : Row},
    x ∈ groupTail1 l → x ∈ l
  | [], x, h => by cases h
  | r :: rest, x, h => by
    rw [groupTail1] at h
    by_cases hany : rest.any (fun r2 => r2.student_id == r.student_id) = true
    · rw [if_pos hany] at h
      exact List.mem_cons_of_mem r (groupTail1_subset h)
    · rw [if_neg hany] at h
      rcases List.mem_cons.mp h with hxr | hxm
      · exact hxr ▸ List.mem_cons_self r rest
      · exact List.mem_cons_of_mem r (groupTail1_subset hxm)

theorem groupTail1_filter_eq (sid : String) : ∀ l : List Row,
    (groupTail1 l).filter (fun r => r.student_id == sid) =
      ((l.filter (fun r => r.student_id == sid)).getLast?).toList
  | [] => rfl
  | r :: rest => by
    have ih := groupTail1_filter_eq sid rest
    rw [groupTail1]
    by_cases hany : rest.any (fun r2 => r2.student_id == r.student_id) = true
    · rw [if_pos hany]
      by_cases hr : (r.student_id == sid) = true
      · have hsid : r.student_id = sid := by simpa using hr
        obtain ⟨r2, hr2m, hr2⟩ := List.any_eq_true.mp hany
        have hr2sid : (r2.student_id == sid) = true := by
          have : r2.student_id = r.student_id := by simpa using hr2
          simp [this, hsid]
        have hmem : r2 ∈ rest.filter (fun r => r.student_id == sid) :=
          List.mem_filter.mpr ⟨hr2m, hr2sid⟩
        rw [List.filter_cons, if_pos hr]
        cases hfe : rest.filter (fun r => r.student_id == sid) with
        | nil => rw [hfe] at hmem; cases hmem
        | cons c cs =>
          rw [List.getLast?_cons_cons, ← hfe]
          exact ih
      · rw [List.filter_cons, if_neg hr]
        exact ih
    · rw [if_neg hany]
      by_cases hr : (r.student_id == sid) = true
      · have hsid : r.student_id = sid := by simpa using hr
        have hfe : rest.filter (fun r => r.student_id == sid) = [] := by
          rw [List.filter_eq_nil_iff]
          intro r2 hr2m hr2
          apply hany
          apply List.any_eq_true.mpr
          refine ⟨r2, hr2m, ?_⟩
          have : r2.student_id = sid := by simpa using hr2
          simp [this, hsid]
        rw [List.filter_cons, if_pos hr, List.filter_cons, if_pos hr, ih, hfe]
        rfl
      · rw [List.filter_cons, if_neg hr, List.filter_cons, if_neg hr]
        exact ih

theorem latest_spec (ts : List Row) (sid : String)
    (hne : (completed ts).filter (fun r => r.student_id == sid) ≠ []) :
    ∃ m, ((List.insertionSort rowLE (completed ts)).filter
            (fun r => r.student_id == sid)).getLast? = some m ∧
      (latest ts).filter (fun r => r.student_id == sid) = [m] ∧
      m ∈ ts ∧ m.student_id = sid ∧ completedB m = true ∧
      ∀ r' ∈ ts, r'.student_id = sid → completedB r' = true →
        keyLE (rowKey r') (rowKey m) = true := by
  have hperm : (List.insertionSort rowLE (completed ts)).Perm (completed ts) :=
    List.perm_insertionSort rowLE (completed ts)
  have hpermf : ((List.insertionSort rowLE (completed ts)).filter
      (fun r => r.student_id == sid)).Perm
      ((completed ts).filter (fun r => r.student_id == sid)) :=
    hperm.filter _
  have hSne : (List.insertionSort rowLE (completed ts)).filter
      (fun r => r.student_id == sid) ≠ [] := by
    intro h
    apply hne
    have hlen := hpermf.length_eq
    rw [h] at hlen
    exact List.eq_nil_of_length_eq_zero hlen.symm
  cases hm : ((List.insertionSort rowLE (completed ts)).filter
      (fun r => r.student_id == sid)).getLast? with
  | none => exact absurd (List.getLast?_eq_none_iff.mp hm) hSne
  | some m =>
    refine ⟨m, rfl, ?_, ?_, ?_, ?_, ?_⟩
    · rw [latest, groupTail1_filter_eq, hm]
      rfl
    · have hmS := getLast?_mem' hm
      have hmsorted := (List.mem_filter.mp hmS).1
      have hmC := (hperm.mem_iff).mp hmsorted
      exact (List.mem_filter.mp hmC).1
    · have hmS := getLast?_mem' hm
      have := (List.mem_filter.mp hmS).2
      simpa using this
    · have hmS := getLast?_mem' hm
      have hmsorted := (List.mem_filter.mp hmS).1
      have hmC := (hperm.mem_iff).mp hmsorted
      exact (List.mem_filter.mp hmC).2
    · intro r' hr' hsid hcomp
      have hC : r' ∈ completed ts := List.mem_filter.mpr ⟨hr', hcomp⟩
      have hsorted : r' ∈ List.insertionSort rowLE (completed ts) :=
        (hperm.mem_iff).mpr hC
      have hS : r' ∈ (List.insertionSort rowLE (completed ts)).filter
          (fun r => r.student_id == sid) :=
        List.mem_filter.mpr ⟨hsorted, by simp [hsid]⟩
      have hsortS : List.Sorted rowLE
          ((List.insertionSort rowLE (completed ts)).filter
            (fun r => r.student_id == sid)) :=
        (List.sorted_insertionSort rowLE (completed ts)).filter _
      have hle := sorted_rel_getLast? hsortS hm r' hS
      rcases hle with hlt | ⟨_, hk⟩
      · have hmS := getLast?_mem' hm
        have hmsid : m.student_id = sid := by
          have := (List.mem_filter.mp hmS).2
          simpa using this
        rw [hsid, hmsid] at hlt
        exact absurd hlt (lt_irrefl sid.data)
      · exact hk

/-- Claim C1: for every student with at least one completed term
(`term_gpa > 0` and `term_points > 0`), the builder's selection contains
exactly one row for that student; that row is one of the student's
completed input rows, its `(year, ordinal)` key is maximal among the
student's completed terms, and no selected row is ever non-completed. -/
theorem builder_selects_unique_latest_completed (ts : List Row) (sid : String)
    (hex : ∃ r ∈ ts, r.student_id = sid ∧ completedB r = true) :
    ∃ m, (latest ts).filter (fun r => r.student_id == sid) = [m] ∧
      m ∈ ts ∧ m.student_id = sid ∧ completedB m = true ∧
      (∀ r' ∈ ts, r'.student_id = sid → completedB r' = true →
        keyLE (rowKey r') (rowKey m) = true) ∧
      (∀ x ∈ latest ts, completedB x = true) := by
  obtain ⟨r, hrm, hsid, hcomp⟩ := hex
  have hne : (completed ts).filter (fun r => r.student_id == sid) ≠ [] := by
    have hmem : r ∈ (completed ts).filter (fun r => r.student_id == sid) :=
      List.mem_filter.mpr ⟨List.mem_filter.mpr ⟨hrm, hcomp⟩, by simp [hsid]⟩
    exact List.ne_nil_of_mem hmem
  obtain ⟨m, _, hfilter, hmts, hmsid, hmcomp, hmax⟩ := latest_spec ts sid hne
  refine ⟨m, hfilter, hmts, hmsid, hmcomp, hmax, ?_⟩
  intro x hx
  rw [latest] at hx
  have hxs := groupTail1_subset hx
  have hxC := ((List.perm_insertionSort rowLE (completed ts)).mem_iff).mp hxs
  exact (List.mem_filter.mp hxC).2

/-- Sample term table used by the C1 witness: student "7" has two
completed terms and one non-completed term; student "8" has one. -/
def sampleTs : List Row :=
  [⟨"7", .str "1447-1", some 2, some 20⟩,
   ⟨"7", .str "1447-2", some 3, some 30⟩,
   ⟨"7", .str "1448-1", some 0, some 10⟩,
   ⟨"8", .str "1447-S", some 4, some 12⟩]

theorem builder_selects_unique_latest_completed_witness :
    ∃ m, (latest sampleTs).filter (fun r => r.student_id == "7") = [m] ∧
      m ∈ sampleTs ∧ m.student_id = "7" ∧ completedB m = true ∧
      (∀ r' ∈ sampleTs, r'.student_id = "7" → completedB r' = true →
        keyLE (rowKey r') (rowKey m) = true) ∧
      (∀ x ∈ latest sampleTs, completedB x = true) :=
  builder_selects_unique_latest_completed sampleTs "7" (by decide)

/-- Claim C10: when a student's completed terms contain several rows whose
keys all equal the maximal key `K`, the selected row is exactly the one
among them that appears last in the input table's row order (the
multi-column sort is stable and `tail(1)` takes the final row of the
group). -/
theorem builder_tie_keeps_last_input_row (ts : List Row) (sid : String)
    (K : Int × Int)
    (hmax : ∀ r' ∈ ts, r'.student_id = sid → completedB r' = true →
      keyLE (rowKey r') K = true)
    (hlen : 2 ≤ (ts.filter (fun r => completedB r && (r.student_id == sid)
        && (rowKey r == K))).length) :
    ∃ m, (ts.filter (fun r => completedB r && (r.student_id == sid)
        && (rowKey r == K))).getLast? = some m ∧
      (latest ts).filter (fun r => r.student_id == sid) = [m] := by
  have hMne : ts.filter (fun r => completedB r && (r.student_id == sid)
      && (rowKey r == K)) ≠ [] := by
    intro h
    rw [h] at hlen
    exact absurd hlen (by decide)
  obtain ⟨r0, hr0⟩ := List.exists_mem_of_ne_nil _ hMne
  have hr0' := List.mem_filter.mp hr0
  have hr0comp : completedB r0 = true := by
    have := hr0'.2
    simp only [Bool.and_eq_true] at this
    exact this.1.1
  have hr0sid : r0.student_id = sid := by
    have := hr0'.2
    simp only [Bool.and_eq_true, beq_iff_eq] at this
    exact this.1.2
  have hr0key : rowKey r0 = K := by
    have := hr0'.2
    simp only [Bool.and_eq_true, beq_iff_eq] at this
    exact this.2
  have hne : (completed ts).filter (fun r => r.student_id == sid) ≠ [] := by
    have hmem : r0 ∈ (completed ts).filter (fun r => r.student_id == sid) :=
      List.mem_filter.mpr ⟨List.mem_filter.mpr ⟨hr0'.1, hr0comp⟩, by simp [hr0sid]⟩
    exact List.ne_nil_of_mem hmem
  obtain ⟨m, hmS, hfilter, hmts, hmsid, hmcomp, hmax'⟩ := latest_spec ts sid hne
  have hmkey : rowKey m = K := by
    have h1 : keyLE (rowKey m) K = true := hmax m hmts hmsid hmcomp
    have h2 : keyLE K (rowKey m) = true := by
      have := hmax' r0 hr0'.1 hr0sid hr0comp
      rw [hr0key] at this
      exact this
    exact keyLE_antisymm h1 h2
  -- M coincides with the completed rows filtered by (sid, key = K)
  have hMeq : ts.filter (fun r => completedB r && (r.student_id == sid)
      && (rowKey r == K)) =
      (completed ts).filter (fun r => (r.student_id == sid) && (rowKey r == K)) := by
    rw [completed, List.filter_filter]
    apply List.filter_congr
    intro x _
    cases hc : completedB x <;> cases hs : (x.student_id == sid) <;>
      cases hk : (rowKey x == K) <;> simp [hc, hs, hk]
  have hMpair : (ts.filter (fun r => completedB r && (r.student_id == sid)
      && (rowKey r == K))).Pairwise rowLE := by
    apply List.pairwise_of_forall_mem_list
    intro a ha b hb
    have ha' := (List.mem_filter.mp ha).2
    have hb' := (List.mem_filter.mp hb).2
    simp only [Bool.and_eq_true, beq_iff_eq] at ha' hb'
    refine Or.inr ⟨ha'.1.2.trans hb'.1.2.symm, ?_⟩
    rw [ha'.2, hb'.2]
    exact keyLE_refl K
  have hMsub : List.Sublist (ts.filter (fun r => completedB r
      && (r.student_id == sid) && (rowKey r == K))) (completed ts) := by
    rw [hMeq]
    exact List.filter_sublist _
  have hMsorted : List.Sublist (ts.filter (fun r => completedB r
      && (r.student_id == sid) && (rowKey r == K)))
      (List.insertionSort rowLE (completed ts)) :=
    List.sublist_insertionSort hMpair hMsub
  -- F: the same filter applied after sorting; stability makes it equal to M
  have hMself : (ts.filter (fun r => completedB r && (r.student_id == sid)
      && (rowKey r == K))).filter
        (fun r => (r.student_id == sid) && (rowKey r == K)) =
      ts.filter (fun r => completedB r && (r.student_id == sid)
        && (rowKey r == K)) := by
    rw [List.filter_eq_self]
    intro a ha
    have := (List.mem_filter.mp ha).2
    simp only [Bool.and_eq_true] at this
    simp [this.1.2, this.2]
  have hMF : List.Sublist (ts.filter (fun r => completedB r
      && (r.student_id == sid) && (rowKey r == K)))
      ((List.insertionSort rowLE (completed ts)).filter
        (fun r => (r.student_id == sid) && (rowKey r == K))) := by
    have := hMsorted.filter (fun r => (r.student_id == sid) && (rowKey r == K))
    rw [hMself] at this
    exact this
  have hFperm : ((List.insertionSort rowLE (completed ts)).filter
      (fun r => (r.student_id == sid) && (rowKey r == K))).Perm
      (ts.filter (fun r => completedB r && (r.student_id == sid)
        && (rowKey r == K))) := by
    rw [hMeq]
    exact (List.perm_insertionSort rowLE (completed ts)).filter _
  have hFM : (List.insertionSort rowLE (completed ts)).filter
      (fun r => (r.student_id == sid) && (rowKey r == K)) =
      ts.filter (fun r => completedB r && (r.student_id == sid)
        && (rowKey r == K)) := by
    have hlenle : ((List.insertionSort rowLE (completed ts)).filter
        (fun r => (r.student_id == sid) && (rowKey r == K))).length ≤
        (ts.filter (fun r => completedB r && (r.student_id == sid)
          && (rowKey r == K))).length :=
      le_of_eq hFperm.length_eq
    exact (hMF.eq_of_length_le hlenle).symm
  -- the selected row survives the key filter, so it is the last row of M
  have hqm : ((fun r => (rowKey r == K)) m) = true := by simp [hmkey]
  have hlast := getLast?_filter (fun r => (rowKey r == K)) hmS hqm
  have hcollapse : ((List.insertionSort rowLE (completed ts)).filter
      (fun r => r.student_id == sid)).filter (fun r => (rowKey r == K)) =
      (List.insertionSort rowLE (completed ts)).filter
        (fun r => (r.student_id == sid) && (rowKey r == K)) := by
    rw [List.filter_filter]
    apply List.filter_congr
    intro x _
    cases hs : (x.student_id == sid) <;> cases hk : (rowKey x == K) <;>
      simp [hs, hk]
  rw [hcollapse, hFM] at hlast
  exact ⟨m, hlast, hfilter⟩

/-- Sample term table used by the C10 witness: student "7" has two
completed rows with the same maximal key (1447, 3), written "1447-S" and
"1447-s", and an earlier completed term. -/
def sampleTsTie : List Row :=
  [⟨"7", .str "1447-S", some 2, some 20⟩,
   ⟨"7", .str "1447-1", some 3, some 30⟩,
   ⟨"7", .str "1447-s", some 4, some 12⟩]

theorem builder_tie_keeps_last_input_row_witness :
    ∃ m, (sampleTsTie.filter (fun r => completedB r && (r.student_id == "7")
        && (rowKey r == ((1447 : Int), (3 : Int))))).getLast? = some m ∧
      (latest sampleTsTie).filter (fun r => r.student_id == "7") = [m] :=
  builder_tie_keeps_last_input_row sampleTsTie "7" ((1447 : Int), (3 : Int))
    (by decide) (by decide)

theorem digit_toNat {c : Char} (h : c.isDigit = true) :
    48 ≤ c.toNat ∧ c.toNat ≤ 57 := by
  simp only [Char.isDigit, Bool.and_eq_true, decide_eq_true_eq] at h
  obtain ⟨h1, h2⟩ := h
  exact ⟨UInt32.le_toNat_of_le (by decide) h1, UInt32.toNat_le_of_le (by decide) h2⟩

theorem digit_toUpper {c : Char} (h : c.isDigit = true) : c.toUpper = c := by
  have := digit_toNat h
  rw [Char.toUpper, if_neg]
  omega

theorem digit_toUpper_ne_S {c : Char} (h : c.isDigit = true) : c.toUpper ≠ 'S' := by
  rw [digit_toUpper h]
  intro heq
  have := digit_toNat h
  rw [heq] at this
  simp [Char.toNat, UInt32.size] at this

theorem digit_ne_sign {c : Char} (h : c.isDigit = true) :
    c ≠ '+' ∧ c ≠ '-' ∧ c ≠ '_' := by
  have hn := digit_toNat h
  refine ⟨?_, ?_, ?_⟩ <;> intro heq <;> rw [heq] at hn <;>
    simp [Char.toNat, UInt32.size] at hn

theorem digit_not_ws {c : Char} (h : c.isDigit = true) : isWS c = false := by
  have hn := digit_toNat h
  simp only [isWS, Char.isWhitespace, Bool.or_eq_false_iff,
    decide_eq_false_iff_not]
  refine ⟨⟨⟨?_, ?_⟩, ?_⟩, ?_⟩ <;> intro heq <;> rw [heq] at hn <;>
    simp [Char.toNat, UInt32.size] at hn

theorem dropWhile_all_false {l : List Char} (h : ∀ c ∈ l, isWS c = false) :
    l.dropWhile isWS = l := by
  cases l with
  | nil => rfl
  | cons a t => simp [List.dropWhile_cons, h a (List.mem_cons_self a t)]

theorem stripWS_all_digits {l : List Char} (h : l.all Char.isDigit = true) :
    stripWS l = l := by
  have h' : ∀ c ∈ l, isWS c = false :=
    fun c hc => digit_not_ws (List.all_eq_true.mp h c hc)
  have h'' : ∀ c ∈ l.reverse, isWS c = false :=
    fun c hc => h' c (List.mem_reverse.mp hc)
  rw [stripWS, dropWhile_all_false h', dropWhile_all_false h'',
    List.reverse_reverse]

theorem digitsCore_cons (acc : Nat) (c : Char) (rest : List Char) :
    digitsCore acc (c :: rest) =
      if c = '_' then
        (match rest with
         | [] => none
         | d :: rest2 =>
           if d.isDigit then digitsCore (digitStep acc d) rest2 else none)
      else if c.isDigit then digitsCore (digitStep acc c) rest else none := by
  rw [digitsCore.eq_def]

theorem digitsCore_digits : ∀ (l : List Char) (acc : Nat),
    l.all Char.isDigit = true → digitsCore acc l = some (l.foldl digitStep acc)
  | [], _, _ => rfl
  | c :: rest, acc, h => by
    have hc : c.isDigit = true ∧ rest.all Char.isDigit = true := by
      simpa using h
    rw [digitsCore_cons, if_neg (digit_ne_sign hc.1).2.2, if_pos hc.1,
      digitsCore_digits rest _ hc.2]
    rfl

theorem parseUDigits_digits {l : List Char} (hne : l ≠ [])
    (h : l.all Char.isDigit = true) : parseUDigits l = some (decimalVal l) := by
  cases l with
  | nil => exact absurd rfl hne
  | cons c rest =>
    have hc : c.isDigit = true ∧ rest.all Char.isDigit = true := by
      simpa using h
    rw [parseUDigits, if_pos hc.1, digitsCore_digits rest _ hc.2]
    rfl

theorem pyIntList?_digits {l : List Char} (hne : l ≠ [])
    (h : l.all Char.isDigit = true) :
    pyIntList? l = some (Int.ofNat (decimalVal l)) := by
  rw [pyIntList?, stripWS_all_digits h]
  cases l with
  | nil => exact absurd rfl hne
  | cons c rest =>
    have hc : c.isDigit = true ∧ rest.all Char.isDigit = true := by
      simpa using h
    rw [pyIntStripped, if_neg (digit_ne_sign hc.1).1,
      if_neg (digit_ne_sign hc.1).2.1,
      parseUDigits_digits (List.cons_ne_nil c rest) h]
    rfl

theorem splitFirst_append {ys : List Char} (ts : List Char) (h : '-' ∉ ys) :
    splitFirst (ys ++ '-' :: ts) = (ys, ts) := by
  induction ys with
  | nil => simp [splitFirst]
  | cons c ys ih =>
    have hc : c ≠ '-' := fun he => h (he ▸ List.mem_cons_self c ys)
    have h' : '-' ∉ ys := fun hm => h (List.mem_cons_of_mem c hm)
    simp [splitFirst, hc, ih h']

theorem digits_no_dash {l : List Char} (h : l.all Char.isDigit = true) :
    '-' ∉ l := by
  intro hm
  exact (digit_ne_sign (List.all_eq_true.mp h _ hm)).2.1 rfl

theorem digits_map_toUpper_ne_S {l : List Char} (h : l.all Char.isDigit = true) :
    l.map Char.toUpper ≠ ['S'] := by
  cases l with
  | nil => simp
  | cons c rest =>
    intro hmap
    have hc : c.isDigit = true ∧ rest.all Char.isDigit = true := by
      simpa using h
    rw [List.map_cons, List.cons.injEq] at hmap
    exact digit_toUpper_ne_S hc.1 hmap.1

theorem term_sort_key_split {ys : List Char} (ts : List Char) (h : '-' ∉ ys) :
    term_sort_key (.str ⟨ys ++ '-' :: ts⟩) =
      ((pyIntList? ys).getD 0,
        if ts.map Char.toUpper = ['S'] then 3 else (pyIntList? ts).getD 0) := by
  have hcont : (ys ++ '-' :: ts).contains '-' = true := by simp
  simp only [term_sort_key, hcont, if_true, splitFirst_append ts h]

/-- Claim C2: the comparator maps a well-formed key "Y-T" (digit strings Y
and T) to the integer pair (Y, T); a summer key "Y-S" or "Y-s" maps to
(Y, 3); and the induced order on "1447-1", "1447-2", "1447-S", "1448-1" is
strictly increasing. -/
theorem term_key_comparator_spec :
    (∀ ys ts : List Char, ys ≠ [] → ts ≠ [] → ys.all Char.isDigit = true →
      ts.all Char.isDigit = true →
      term_sort_key (.str ⟨ys ++ '-' :: ts⟩) =
        (Int.ofNat (decimalVal ys), Int.ofNat (decimalVal ts))) ∧
    (∀ ys : List Char, ys ≠ [] → ys.all Char.isDigit = true →
      term_sort_key (.str ⟨ys ++ ['-', 'S']⟩) = (Int.ofNat (decimalVal ys), 3) ∧
      term_sort_key (.str ⟨ys ++ ['-', 's']⟩) = (Int.ofNat (decimalVal ys), 3)) ∧
    (keyLT (term_sort_key (.str "1447-1")) (term_sort_key (.str "1447-2")) = true ∧
     keyLT (term_sort_key (.str "1447-2")) (term_sort_key (.str "1447-S")) = true ∧
     keyLT (term_sort_key (.str "1447-S")) (term_sort_key (.str "1448-1")) = true) := by
  refine ⟨?_, ?_, by decide, by decide, by decide⟩
  · intro ys ts hys hts hysd htsd
    rw [term_sort_key_split ts (digits_no_dash hysd),
      if_neg (digits_map_toUpper_ne_S htsd),
      pyIntList?_digits hys hysd, pyIntList?_digits hts htsd]
    rfl
  · intro ys hys hysd
    constructor
    · rw [show (['-', 'S'] : List Char) = '-' :: ['S'] from rfl,
        term_sort_key_split ['S'] (digits_no_dash hysd)]
      rw [if_pos (by decide), pyIntList?_digits hys hysd]
      rfl
    · rw [show (['-', 's'] : List Char) = '-' :: ['s'] from rfl,
        term_sort_key_split ['s'] (digits_no_dash hysd)]
      rw [if_pos (by decide), pyIntList?_digits hys hysd]
      rfl

theorem term_key_comparator_spec_witness :
    term_sort_key (.str ⟨['1', '4', '4', '7'] ++ '-' :: ['1', '2']⟩) =
      (Int.ofNat (decimalVal ['1', '4', '4', '7']),
        Int.ofNat (decimalVal ['1', '2'])) ∧
    term_sort_key (.str ⟨['1', '4', '4', '7'] ++ ['-', 's']⟩) =
      (Int.ofNat (decimalVal ['1', '4', '4', '7']), 3) :=
  ⟨term_key_comparator_spec.1 ['1', '4', '4', '7'] ['1', '2']
      (by decide) (by decide) (by decide) (by decide),
    (term_key_comparator_spec.2.1 ['1', '4', '4', '7'] (by decide) (by decide)).2⟩

/-- Claim C9 (amended): the comparator is total; a non-string or dash-free
key maps to (0, 0); an unparsable year or non-summer unparsable term
component maps to 0 in its position; and any key whose derived year is 0 —
in particular every non-string, dash-free, or year-unparsable key — sorts
strictly before every key pair with a positive year.  (A malformed key
whose year still parses, such as "1448-X", is not covered: it can sort
after well-formed keys of earlier years.) -/
theorem term_key_comparator_totality :
    (term_sort_key PyVal.nonStr = (0, 0)) ∧
    (∀ s : String, s.data.contains '-' = false →
      term_sort_key (.str s) = (0, 0)) ∧
    (∀ s : String, s.data.contains '-' = true →
      pyIntList? (splitFirst s.data).1 = none →
      (term_sort_key (.str s)).1 = 0) ∧
    (∀ s : String, s.data.contains '-' = true →
      (splitFirst s.data).2.map Char.toUpper ≠ ['S'] →
      pyIntList? (splitFirst s.data).2 = none →
      (term_sort_key (.str s)).2 = 0) ∧
    (∀ v : PyVal, ∀ k : Int × Int, (term_sort_key v).1 = 0 → 0 < k.1 →
      keyLT (term_sort_key v) k = true) := by
  refine ⟨rfl, ?_, ?_, ?_, ?_⟩
  · intro s hc
    simp only [term_sort_key, hc]
    rfl
  · intro s hc hy
    simp only [term_sort_key, hc, if_true, hy]
    rfl
  · intro s hc hs ht
    simp only [term_sort_key, hc, if_true, if_neg hs, ht]
    rfl
  · intro v k h0 hk
    rw [keyLT_iff]
    omega

theorem term_key_comparator_totality_witness :
    (term_sort_key (.str "abc")) = (0, 0) ∧
    (term_sort_key (.str "X-2")).1 = 0 ∧
    (term_sort_key (.str "1447-X")).2 = 0 ∧
    keyLT (term_sort_key (.str "X-2")) ((1447 : Int), (1 : Int)) = true :=
  ⟨term_key_comparator_totality.2.1 "abc" (by decide),
    term_key_comparator_totality.2.2.1 "X-2" (by decide) (by decide),
    term_key_comparator_totality.2.2.2.1 "1447-X" (by decide) (by decide)
      (by decide),
    term_key_comparator_totality.2.2.2.2 (.str "X-2") ((1447 : Int), (1 : Int))
      (by decide) (by decide)⟩

/-- Counterexample to claim C9 as stated: "1448-X" is malformed (its term
component fails to parse and becomes 0) yet its key (1448, 0) sorts
strictly after the well-formed positive-year key (1447, 2), and the
builder selects the malformed-key row over the earlier completed
well-formed one. -/
theorem term_key_malformed_after_wellformed :
    term_sort_key (.str "1448-X") = (1448, 0) ∧
    term_sort_key (.str "1447-2") = (1447, 2) ∧
    keyLE (term_sort_key (.str "1448-X")) (term_sort_key (.str "1447-2")) = false ∧
    latest [⟨"7", .str "1447-2", some 3, some 30⟩,
            ⟨"7", .str "1448-X", some 2, some 24⟩] =
      [⟨"7", .str "1448-X", some 2, some 24⟩] :=
  ⟨by decide, by decide, by decide, by decide⟩

/-- A cell value as it appears in a loaded CSV row dict: a string, a
number, NaN, or Python `None` (which `dict.get` returns for an absent
column). -/
inductive JVal where
  | vnone
  | vstr (s : String)
  | vnum (q : ℚ)
  | vnan
deriving DecidableEq

/-- Python truthiness: `None`, `""` and `0`/`0.0` are falsy; NaN is
truthy. -/
def truthy : JVal → Bool
  | .vnone => false
  | .vstr s => !(s == "")
  | .vnum q => !(decide (q = 0))
  | .vnan => true

/-- Python's short-circuit `a or b`: `a` if truthy, else `b`. -/
def pyOr (a b : JVal) : JVal := if truthy a then a else b

theorem pyOr_assoc (a b c : JVal) : pyOr (pyOr a b) c = pyOr a (pyOr b c) := by
  cases h : truthy a <;> simp [pyOr, h]

/-- `r.get(k)` on the row dict: the value of the first binding of `k`, or
`None` when the column is absent. -/
def rget (r : List (String × JVal)) (k : String) : JVal :=
  match r.find? (fun kv => kv.1 == k) with
  | some kv => kv.2
  | none => .vnone

/-- The loaded prediction dataframe after
`df["student_id"] = df["student_id"].astype(str)`: column names (already
whitespace-trimmed by `load_predictions`) and one dict per row; the
`student_id` values are strings. -/
structure Table where
  cols : List String
  rows : List (List (String × JVal))
deriving DecidableEq

/-- The six JSON fields of a successful `/api/prediction` response. -/
structure PredOut where
  student_id : String
  student_name : JVal
  current_gpa : JVal
  predicted_next_term_gpa : JVal
  risk_level : JVal
  risk_probability_high : JVal
deriving DecidableEq

/-- An HTTP response of the endpoint: an error JSON with its status code,
or a 200 JSON body. -/
inductive ApiResp where
  | error (status : Nat) (msg : String)
  | ok (body : PredOut)
deriving DecidableEq

def respStatus : ApiResp → Nat
  | .error c _ => c
  | .ok _ => 200

/-- Python's `s.strip()` (ASCII fragment). -/
def pyStrip (s : String) : String := ⟨stripWS s.data⟩

/-- The field resolution of the handler: each output field is a chain of
`r.get(...) or r.get(...) or ...` over synonym columns (the display name
ends with `or ""`). -/
def mkBody (sid : String) (r : List (String × JVal)) : PredOut :=
  ⟨sid,
    pyOr (rget r "student_name_en") (pyOr (rget r "student_label")
      (pyOr (rget r "student_name") (.vstr ""))),
    pyOr (rget r "cum_gpa") (pyOr (rget r "current_gpa") (rget r "gpa")),
    pyOr (rget r "predicted_next_term_gpa")
      (pyOr (rget r "predicted_gpa") (rget r "pred")),
    pyOr (rget r "predicted_risk_level")
      (pyOr (rget r "risk_level") (rget r "risk")),
    pyOr (rget r "risk_probability_high")
      (pyOr (rget r "prob_high") (rget r "risk_prob"))⟩

/-- The `/api/prediction` handler: trim the `student_id` query parameter
(absent modelled as `none`), reject empty as 400; a missing CSV file
(`db = none`) is 500; a missing `student_id` column is 500; no matching
row is 404; otherwise the last matching row (`row.iloc[-1]`) is rendered
as a 200 body. -/
def prediction (param : Option String) (db : Option Table) : ApiResp :=
  let student_id := pyStrip (param.getD "")
  if student_id == "" then .error 400 "student_id required"
  else
    match db with
    | none => .error 500
        "predictions_next_term.csv not found in the same folder as api_server.py"
    | some df =>
      if df.cols.contains "student_id" then
        match (df.rows.filter
            (fun r => rget r "student_id" == JVal.vstr student_id)).getLast? with
        | none => .error 404 "student_id not found"
        | some r => .ok (mkBody student_id r)
      else .error 500 "CSV missing column: student_id"

/-- A `get`-or-chain over a priority list of column names, as the handler
writes it out; the last column's value (not `None`) is the fallback. -/
def orChain (r : List (String × JVal)) : List String → JVal
  | [] => .vnone
  | [c] => rget r c
  | c :: cs => pyOr (rget r c) (orChain r cs)

theorem prediction_found (q : String) (df : Table) (h1 : pyStrip q ≠ "")
    (h2 : df.cols.contains "student_id" = true) {r : List (String × JVal)}
    (hl : (df.rows.filter
      (fun r => rget r "student_id" == JVal.vstr (pyStrip q))).getLast? = some r) :
    prediction (some q) (some df) = .ok (mkBody (pyStrip q) r) := by
  have hne : ¬((pyStrip q == "") = true) := by simpa using h1
  simp only [prediction, Option.getD_some, if_neg hne, h2, if_true, hl]

theorem orChain_cons_truthy {r : List (String × JVal)} {c : String}
    (cs : List String) (h : truthy (rget r c) = true) :
    orChain r (c :: cs) = rget r c := by
  cases cs with
  | nil => rfl
  | cons c2 cs2 => simp only [orChain, pyOr, h, if_true]

theorem orChain_cons_falsy {r : List (String × JVal)} {c : String}
    {cs : List String} (h : truthy (rget r c) = false) (hne : cs ≠ []) :
    orChain r (c :: cs) = orChain r cs := by
  cases cs with
  | nil => exact absurd rfl hne
  | cons c2 cs2 => simp only [orChain, pyOr, h, Bool.false_eq_true, if_false]

/-- Claim C6: the endpoint returns 400 for an absent, empty or
whitespace-only identifier; 500 with a message naming the expected CSV
file when the file is missing; 404 when no row matches the trimmed
identifier; and a 200 body carrying all six JSON fields when a row
matches. -/
theorem api_status_codes :
    (∀ db : Option Table,
      prediction none db = .error 400 "student_id required") ∧
    (∀ (s : String) (db : Option Table), pyStrip s = "" →
      prediction (some s) db = .error 400 "student_id required") ∧
    (∀ s : String, pyStrip s ≠ "" →
      prediction (some s) none = .error 500
        "predictions_next_term.csv not found in the same folder as api_server.py") ∧
    (∀ (s : String) (df : Table), pyStrip s ≠ "" →
      df.cols.contains "student_id" = true →
      df.rows.filter
        (fun r => rget r "student_id" == JVal.vstr (pyStrip s)) = [] →
      prediction (some s) (some df) = .error 404 "student_id not found") ∧
    (∀ (s : String) (df : Table), pyStrip s ≠ "" →
      df.cols.contains "student_id" = true →
      df.rows.filter
        (fun r => rget r "student_id" == JVal.vstr (pyStrip s)) ≠ [] →
      ∃ r, prediction (some s) (some df) = .ok (mkBody (pyStrip s) r) ∧
        respStatus (prediction (some s) (some df)) = 200) := by
  refine ⟨fun db => rfl, ?_, ?_, ?_, ?_⟩
  · intro s db h
    have hb : (pyStrip s == "") = true := by simpa using h
    simp only [prediction, Option.getD_some, hb, if_true]
  · intro s h
    have hne : ¬((pyStrip s == "") = true) := by simpa using h
    simp only [prediction, Option.getD_some, if_neg hne]
  · intro s df h1 h2 hfe
    have hne : ¬((pyStrip s == "") = true) := by simpa using h1
    simp only [prediction, Option.getD_some, if_neg hne, h2, if_true, hfe,
      List.getLast?_nil]
  · intro s df h1 h2 hfe
    cases hl : (df.rows.filter
        (fun r => rget r "student_id" == JVal.vstr (pyStrip s))).getLast? with
    | none => exact absurd (List.getLast?_eq_none_iff.mp hl) hfe
    | some r =>
      have hok := prediction_found s df h1 h2 hl
      exact ⟨r, hok, by rw [hok]; rfl⟩

/-- Table used by the C6 and C7 witnesses: two rows for student "3",
one for student "9". -/
def sampleTable : Table :=
  ⟨["student_id", "student_label", "cum_gpa", "predicted_next_term_gpa",
      "predicted_risk_level", "risk_probability_high"],
    [[("student_id", .vstr "3"), ("student_label", .vstr "A"),
      ("cum_gpa", .vnum 3), ("predicted_next_term_gpa", .vnum 2),
      ("predicted_risk_level", .vstr "LOW"), ("risk_probability_high", .vnum 0)],
     [("student_id", .vstr "9"), ("student_label", .vstr "B"),
      ("cum_gpa", .vnum 2), ("predicted_next_term_gpa", .vnum 2),
      ("predicted_risk_level", .vstr "HIGH"), ("risk_probability_high", .vnum 1)],
     [("student_id", .vstr "3"), ("student_label", .vstr "C"),
      ("cum_gpa", .vnum 4), ("predicted_next_term_gpa", .vnum 3),
      ("predicted_risk_level", .vstr "LOW"), ("risk_probability_high", .vnum 0)]]⟩

theorem api_status_codes_witness :
    prediction (some " ") (some sampleTable) = .error 400 "student_id required" ∧
    prediction (some "42") none = .error 500
      "predictions_next_term.csv not found in the same folder as api_server.py" ∧
    prediction (some "42") (some sampleTable) = .error 404 "student_id not found" ∧
    (∃ r, prediction (some "9") (some sampleTable) = .ok (mkBody (pyStrip "9") r) ∧
      respStatus (prediction (some "9") (some sampleTable)) = 200) :=
  ⟨api_status_codes.2.1 " " (some sampleTable) (by decide),
    api_status_codes.2.2.1 "42" (by decide),
    api_status_codes.2.2.2.1 "42" sampleTable (by decide) (by decide) (by decide),
    api_status_codes.2.2.2.2 "9" sampleTable (by decide) (by decide) (by decide)⟩

/-- Claim C7: when two or more rows share the queried identifier, the
response body is built from the last matching row in file order. -/
theorem api_last_duplicate_wins (q : String) (df : Table)
    (h1 : pyStrip q ≠ "")
    (h2 : df.cols.contains "student_id" = true)
    (h3 : 2 ≤ (df.rows.filter
      (fun r => rget r "student_id" == JVal.vstr (pyStrip q))).length) :
    ∃ r, (df.rows.filter
        (fun r => rget r "student_id" == JVal.vstr (pyStrip q))).getLast? = some r ∧
      prediction (some q) (some df) = .ok (mkBody (pyStrip q) r) := by
  cases hl : (df.rows.filter
      (fun r => rget r "student_id" == JVal.vstr (pyStrip q))).getLast? with
  | none =>
    rw [List.getLast?_eq_none_iff.mp hl] at h3
    exact absurd h3 (by decide)
  | some r => exact ⟨r, rfl, prediction_found q df h1 h2 hl⟩

theorem api_last_duplicate_wins_witness :
    ∃ r, (sampleTable.rows.filter
        (fun r => rget r "student_id" == JVal.vstr (pyStrip "3"))).getLast? = some r ∧
      prediction (some "3") (some sampleTable) = .ok (mkBody (pyStrip "3") r) :=
  api_last_duplicate_wins "3" sampleTable (by decide) (by decide) (by decide)

/-- Claim C4 (amended): each output field is resolved by an `or`-chain
over its fixed priority list in which the first column holding a truthy
value wins; the canonical column's value is returned whenever it is
truthy, and a lower-priority synonym is consulted precisely when every
higher-priority column is absent or holds a falsy value (None, 0, 0.0 or
""), not merely when it is absent. -/
theorem api_field_resolution_first_truthy :
    (∀ (sid : String) (r : List (String × JVal)),
      (mkBody sid r).student_name =
        pyOr (orChain r ["student_name_en", "student_label", "student_name"])
          (.vstr "") ∧
      (mkBody sid r).current_gpa = orChain r ["cum_gpa", "current_gpa", "gpa"] ∧
      (mkBody sid r).predicted_next_term_gpa =
        orChain r ["predicted_next_term_gpa", "predicted_gpa", "pred"] ∧
      (mkBody sid r).risk_level =
        orChain r ["predicted_risk_level", "risk_level", "risk"] ∧
      (mkBody sid r).risk_probability_high =
        orChain r ["risk_probability_high", "prob_high", "risk_prob"]) ∧
    (∀ (r : List (String × JVal)) (c : String) (cs : List String),
      truthy (rget r c) = true → orChain r (c :: cs) = rget r c) ∧
    (∀ (r : List (String × JVal)) (c : String) (cs : List String),
      truthy (rget r c) = false → cs ≠ [] → orChain r (c :: cs) = orChain r cs) ∧
    (∀ (sid : String) (r : List (String × JVal)),
      truthy (rget r "cum_gpa") = true →
        (mkBody sid r).current_gpa = rget r "cum_gpa") ∧
    (∀ (sid : String) (r : List (String × JVal)),
      truthy (rget r "predicted_risk_level") = true →
        (mkBody sid r).risk_level = rget r "predicted_risk_level") := by
  refine ⟨?_, fun r c cs h => orChain_cons_truthy cs h,
    fun r c cs h hne => orChain_cons_falsy h hne, ?_, ?_⟩
  · intro sid r
    refine ⟨?_, rfl, rfl, rfl, rfl⟩
    simp only [orChain, mkBody, pyOr_assoc]
  · intro sid r h
    have := orChain_cons_truthy (r := r) (c := "cum_gpa") ["current_gpa", "gpa"] h
    simp only [orChain] at this
    simpa [mkBody] using this
  · intro sid r h
    have := orChain_cons_truthy (r := r) (c := "predicted_risk_level")
      ["risk_level", "risk"] h
    simp only [orChain] at this
    simpa [mkBody] using this

theorem api_field_resolution_first_truthy_witness :
    (mkBody "1" [("cum_gpa", JVal.vnum 3)]).current_gpa =
      orChain [("cum_gpa", JVal.vnum 3)] ["cum_gpa", "current_gpa", "gpa"] ∧
    orChain [("cum_gpa", JVal.vnum 3)] ["cum_gpa", "current_gpa", "gpa"] =
      rget [("cum_gpa", JVal.vnum 3)] "cum_gpa" ∧
    (mkBody "1" [("cum_gpa", JVal.vnum 3)]).current_gpa =
      rget [("cum_gpa", JVal.vnum 3)] "cum_gpa" :=
  ⟨(api_field_resolution_first_truthy.1 "1" [("cum_gpa", JVal.vnum 3)]).2.1,
    api_field_resolution_first_truthy.2.1 [("cum_gpa", JVal.vnum 3)] "cum_gpa"
      ["current_gpa", "gpa"] (by decide),
    api_field_resolution_first_truthy.2.2.2.1 "1" [("cum_gpa", JVal.vnum 3)]
      (by decide)⟩

/-- The row dict of the C4 counterexample: the canonical `cum_gpa` column
is present but holds `0.0`, while the synonym `current_gpa` holds `2`. -/
def rowFalsyCanonical : List (String × JVal) :=
  [("cum_gpa", .vnum 0), ("current_gpa", .vnum 2)]

/-- Counterexample to claim C4 as stated: `cum_gpa` is present in the row
(its lookup succeeds), yet the handler returns the synonym `current_gpa`'s
value because the canonical value `0.0` is falsy. -/
theorem api_present_canonical_value_skipped :
    (rowFalsyCanonical.find? (fun kv => kv.1 == "cum_gpa")).isSome = true ∧
    rget rowFalsyCanonical "cum_gpa" = .vnum 0 ∧
    (mkBody "1" rowFalsyCanonical).current_gpa = .vnum 2 ∧
    (mkBody "1" rowFalsyCanonical).current_gpa ≠ rget rowFalsyCanonical "cum_gpa" :=
  ⟨by decide, by decide, by decide, by decide⟩

/-- The builder's feature-column validation:
`missing = [c for c in feature_cols if c not in latest.columns]`, raising
`KeyError` naming `missing` when it is nonempty.  The error payload is the
list interpolated into the message. -/
def validateFeatures (feature_cols cols : List String) :
    Except (List String) Unit :=
  let missing := feature_cols.filter (fun c => !(cols.contains c))
  if missing.isEmpty then .ok () else .error missing

/-- Claim C5: the builder proceeds iff every configured feature column is
present, and on failure the error names exactly the configured columns
that are missing. -/
theorem feature_validation_spec (fc cols : List String) :
    (validateFeatures fc cols = .ok () ↔ ∀ c ∈ fc, c ∈ cols) ∧
    (∀ m, validateFeatures fc cols = .error m →
      ∀ c, (c ∈ m ↔ c ∈ fc ∧ c ∉ cols)) ∧
    ((∃ c ∈ fc, c ∉ cols) → ∃ m, validateFeatures fc cols = .error m) := by
  by_cases he : fc.filter (fun c => !(cols.contains c)) = []
  · have hok : validateFeatures fc cols = .ok () := by
      simp only [validateFeatures, he, List.isEmpty_nil, if_true]
    have hall : ∀ c ∈ fc, c ∈ cols := by
      intro c hc
      by_contra hmem
      have : c ∈ fc.filter (fun c => !(cols.contains c)) :=
        List.mem_filter.mpr ⟨hc, by simpa using hmem⟩
      rw [he] at this
      cases this
    refine ⟨⟨fun _ => hall, fun _ => hok⟩, ?_, ?_⟩
    · intro m hm
      rw [hok] at hm
      cases hm
    · intro ⟨c, hc, hmem⟩
      exact absurd (hall c hc) hmem
  · have hie : (fc.filter (fun c => !(cols.contains c))).isEmpty = false := by
      simpa [List.isEmpty_iff] using he
    have herr : validateFeatures fc cols =
        .error (fc.filter (fun c => !(cols.contains c))) := by
      simp only [validateFeatures, hie, Bool.false_eq_true, if_false]
    refine ⟨⟨fun h => ?_, fun hall => ?_⟩, ?_, ?_⟩
    · rw [herr] at h
      cases h
    · exact absurd (List.filter_eq_nil_iff.mpr
        (fun c hc => by simpa using hall c hc)) he
    · intro m hm c
      rw [herr] at hm
      cases hm
      simp [List.mem_filter]
    · intro _
      exact ⟨_, herr⟩

theorem feature_validation_spec_witness :
    (validateFeatures ["term_gpa", "cum_gpa"] ["term_gpa", "cum_gpa", "x"] =
      .ok () ↔ ∀ c ∈ ["term_gpa", "cum_gpa"], c ∈ ["term_gpa", "cum_gpa", "x"]) ∧
    (∀ m, validateFeatures ["term_gpa", "hours"] ["term_gpa"] = .error m →
      ∀ c, (c ∈ m ↔ c ∈ ["term_gpa", "hours"] ∧ c ∉ ["term_gpa"])) :=
  ⟨(feature_validation_spec ["term_gpa", "cum_gpa"]
      ["term_gpa", "cum_gpa", "x"]).1,
    (feature_validation_spec ["term_gpa", "hours"] ["term_gpa"]).2.1⟩

/-- The classifier as the builder sees it: whether `predict_proba` exists,
the `classes_` attribute (`[]` when absent), and the probability matrix
`predict_proba(X)` — one row per selected student, columns aligned with
`classes_`. -/
structure Clf where
  hasPredictProba : Bool
  classes : List String
  probaRows : List (List ℚ)
deriving DecidableEq

/-- `probs.max(axis=1)` on one row. -/
def rowMax : List ℚ → ℚ
  | [] => 0
  | h :: t => t.foldl max h

/-- The `proba` computation of the builder: `None` without
`predict_proba`; otherwise the "HIGH" column of the probability matrix
when "HIGH" is among the classes, else the row maxima.  The
`risk_probability_high` output column is added iff this is not `None`. -/
def computeProba (clf : Clf) : Option (List ℚ) :=
  if clf.hasPredictProba then
    if clf.classes.contains "HIGH" then
      some (clf.probaRows.map
        (fun row => row.getD (clf.classes.indexOf "HIGH") 0))
    else some (clf.probaRows.map rowMax)
  else none

theorem le_foldl_max : ∀ (t : List ℚ) (a : ℚ), a ≤ t.foldl max a
  | [], _ => le_refl _
  | b :: t, a =>
    le_trans (le_max_left a b) (le_foldl_max t (max a b))

theorem mem_le_foldl_max : ∀ (t : List ℚ) (a : ℚ), ∀ x ∈ t, x ≤ t.foldl max a
  | [], _, _, hx => absurd hx (List.not_mem_nil _)
  | b :: t, a, x, hx => by
    rw [List.foldl_cons]
    rcases List.mem_cons.mp hx with hxb | hxt
    · rw [hxb]
      exact le_trans (le_max_right a b) (le_foldl_max t (max a b))
    · exact mem_le_foldl_max t (max a b) x hxt

theorem foldl_max_mem : ∀ (t : List ℚ) (a : ℚ),
    t.foldl max a = a ∨ t.foldl max a ∈ t
  | [], _ => Or.inl rfl
  | b :: t, a => by
    rcases foldl_max_mem t (max a b) with h | h
    · rcases max_choice a b with hm | hm
      · exact Or.inl (by rw [List.foldl_cons, h, hm])
      · exact Or.inr (by rw [List.foldl_cons, h, hm]; exact List.mem_cons_self b t)
    · exact Or.inr (List.mem_cons_of_mem b h)

theorem getD_indexOf_self {l : List String} (h : "HIGH" ∈ l) :
    l.getD (l.indexOf "HIGH") "" = "HIGH" := by
  have hlt : l.indexOf "HIGH" < l.length := List.indexOf_lt_length.mpr h
  rw [List.getD_eq_getElem l "" hlt]
  exact List.getElem_indexOf hlt

/-- Claim C8: without `predict_proba` the `risk_probability_high` column
is absent (`computeProba` is `none`, and only a non-`None` `proba` is
written); with it, every output row holds the "HIGH" class probability
when "HIGH" is among the classes (the indexed column really is the
"HIGH" column), else the row maximum (a genuine maximum: an upper bound
that is attained on nonempty rows). -/
theorem risk_probability_spec (clf : Clf) :
    (clf.hasPredictProba = false ↔ computeProba clf = none) ∧
    (clf.hasPredictProba = true → clf.classes.contains "HIGH" = true →
      computeProba clf = some (clf.probaRows.map
        (fun row => row.getD (clf.classes.indexOf "HIGH") 0)) ∧
      clf.classes.getD (clf.classes.indexOf "HIGH") "" = "HIGH") ∧
    (clf.hasPredictProba = true → clf.classes.contains "HIGH" = false →
      computeProba clf = some (clf.probaRows.map rowMax)) ∧
    (∀ row : List ℚ, ∀ x ∈ row, x ≤ rowMax row) ∧
    (∀ row : List ℚ, row ≠ [] → rowMax row ∈ row) := by
  refine ⟨?_, ?_, ?_, ?_, ?_⟩
  · constructor
    · intro h
      simp [computeProba, h]
    · intro h
      by_contra hp
      have hp' : clf.hasPredictProba = true := by
        cases hh : clf.hasPredictProba
        · exact absurd hh hp
        · rfl
      rw [computeProba, if_pos hp'] at h
      by_cases hc : clf.classes.contains "HIGH" = true
      · rw [if_pos hc] at h
        cases h
      · rw [if_neg hc] at h
        cases h
  · intro hp hc
    refine ⟨by rw [computeProba, if_pos hp, if_pos hc], ?_⟩
    exact getD_indexOf_self (by simpa using hc)
  · intro hp hc
    rw [computeProba, if_pos hp, if_neg]
    rw [hc]
    exact Bool.false_ne_true
  · intro row x hx
    cases row with
    | nil => cases hx
    | cons h t =>
      rcases List.mem_cons.mp hx with hxh | hxt
      · exact hxh ▸ le_foldl_max t h
      · exact mem_le_foldl_max t h x hxt
  · intro row hne
    cases row with
    | nil => exact absurd rfl hne
    | cons h t =>
      rcases foldl_max_mem t h with hm | hm
      · rw [rowMax, hm]
        exact List.mem_cons_self h t
      · exact List.mem_cons_of_mem h (by rw [rowMax]; exact hm)

theorem risk_probability_spec_witness :
    (Clf.mk true ["LOW", "HIGH"] [[1/4, 3/4], [1/2, 1/2]]).hasPredictProba = true ∧
    computeProba (Clf.mk true ["LOW", "HIGH"] [[1/4, 3/4], [1/2, 1/2]]) =
      some ((Clf.mk true ["LOW", "HIGH"] [[1/4, 3/4], [1/2, 1/2]]).probaRows.map
        (fun row => row.getD
          ((Clf.mk true ["LOW", "HIGH"] [[1/4, 3/4], [1/2, 1/2]]).classes.indexOf
            "HIGH") 0)) ∧
    computeProba (Clf.mk false [] []) = none ∧
    computeProba (Clf.mk true ["A", "B"] [[1/4, 3/4]]) =
      some ([[(1/4 : ℚ), 3/4]].map rowMax) :=
  ⟨rfl,
    ((risk_probability_spec (Clf.mk true ["LOW", "HIGH"]
      [[1/4, 3/4], [1/2, 1/2]])).2.1 rfl (by decide)).1,
    (risk_probability_spec (Clf.mk false [] [])).1.mp rfl,
    (risk_probability_spec (Clf.mk true ["A", "B"] [[1/4, 3/4]])).2.2.1 rfl
      (by decide)⟩

